import Mathlib

/-!
Shallow embedding of `combine_tsv.py`: a batch pipeline that reads per-speaker
TSV transcript files, concatenates them into one table sorted by the `start`
timestamp, assigns dense ids, derives a `duration` column, and computes
report statistics (duration span, averages, speaker counts, word frequency).

Machine integers are modelled as `Int` (timestamps fit comfortably in int64;
no overflow occurs for realistic transcripts), missing cell values as
`Option`, pandas true division as exact division in `ℚ`, and the fallible
`pd.concat` as an `Option` result.
-/

namespace CombineTsv

/-- A raw input row as parsed by `pd.read_csv(file, sep="\t")`: the `text`
cell may be missing (pandas `NaN`), `start` and `end` are integer millisecond
timestamps. -/
structure RawRow where
  text : Option String
  start : Int
  end_ : Int
  deriving DecidableEq

/-- An input file: its file name as returned by `glob.glob("*.tsv")` (so the
name carries the `.tsv` extension) together with its parsed rows. -/
structure InputFile where
  name : String
  rows : List RawRow
  deriving DecidableEq

/-- A row after the per-file tagging `df["person"] = os.path.splitext(file)[0]`
and concatenation. -/
structure TaggedRow where
  person : String
  text : Option String
  start : Int
  end_ : Int
  deriving DecidableEq

/-- A row of the combined table written to `all.tsv`: columns
`id, person, text, start, end, duration`. -/
structure Row where
  id : Nat
  person : String
  text : Option String
  start : Int
  end_ : Int
  duration : Int
  deriving DecidableEq

/-- Models `os.path.splitext(file)[0]`: the file name without its final
extension.  `glob.glob("*.tsv")` yields only non-hidden names ending in
`.tsv`, so this drops those four characters. -/
def splitextBase (name : String) : String :=
  if ".tsv".data.isSuffixOf name.data then ⟨name.data.take (name.data.length - 4)⟩
  else name

/-- The loop body of `process_tsv_files`: read one file and tag every row
with the file's base name as its `person`. -/
def tagRows (f : InputFile) : List TaggedRow :=
  f.rows.map fun r => ⟨splitextBase f.name, r.text, r.start, r.end_⟩

/-- The files the ingestion loop keeps: `if file != "all.tsv"`, i.e. every
discovered `.tsv` file except the reserved output file. -/
def qualifying (files : List InputFile) : List InputFile :=
  files.filter fun f => f.name != "all.tsv"

/-- The comparison used by `combined_df.sort_values("start")`: order rows by
their `start` field. -/
def startLE (a b : TaggedRow) : Prop := a.start ≤ b.start

instance : DecidableRel startLE := fun a b => Int.decLe a.start b.start

instance : IsTotal TaggedRow startLE := ⟨fun a b => Int.le_total a.start b.start⟩

instance : IsTrans TaggedRow startLE := ⟨fun _ _ _ h₁ h₂ => le_trans h₁ h₂⟩

/-- Models `combined_df.insert(0, "id", range(1, len(combined_df) + 1))`
together with the derived column
`combined_df["duration"] = combined_df["end"] - combined_df["start"]`:
the row at 0-based position `i` of the sorted table receives id `n + i`,
starting from `n = 1`. -/
def addIdsFrom : Nat → List TaggedRow → List Row
  | _, [] => []
  | n, r :: rs => ⟨n, r.person, r.text, r.start, r.end_, r.end_ - r.start⟩ :: addIdsFrom (n + 1) rs

/-- Models `process_tsv_files`: read every `.tsv` file except `all.tsv`,
tag rows with the source file's base name, concatenate, sort by `start`
(pandas `sort_values("start")`; modelled by a sort placing rows in
non-decreasing `start` order), assign ids `1..N`, and derive `duration`.
Returns `none` exactly when `pd.concat(dfs)` raises, i.e. when no qualifying
input file exists. -/
def process_tsv_files (files : List InputFile) : Option (List Row) :=
  if qualifying files = [] then none
  else some (addIdsFrom 1
    (List.insertionSort startLE (((qualifying files).map tagRows).flatten)))

theorem addIdsFrom_length (n : Nat) (l : List TaggedRow) :
    (addIdsFrom n l).length = l.length := by
  induction l generalizing n with
  | nil => rfl
  | cons r rs ih => simp [addIdsFrom, ih]

theorem addIdsFrom_map_id (n : Nat) (l : List TaggedRow) :
    (addIdsFrom n l).map Row.id = List.range' n l.length := by
  induction l generalizing n with
  | nil => rfl
  | cons r rs ih => simp [addIdsFrom, ih, List.range']

theorem mem_addIdsFrom {l : List TaggedRow} {n : Nat} {b : Row}
    (hb : b ∈ addIdsFrom n l) :
    ∃ r ∈ l, b.start = r.start ∧ b.end_ = r.end_ ∧ b.duration = r.end_ - r.start := by
  induction l generalizing n with
  | nil => simp [addIdsFrom] at hb
  | cons r rs ih =>
    simp only [addIdsFrom, List.mem_cons] at hb
    rcases hb with h | h
    · exact ⟨r, List.mem_cons_self .., by simp [h]⟩
    · obtain ⟨r', hr', h₁, h₂, h₃⟩ := ih h
      exact ⟨r', List.mem_cons_of_mem _ hr', h₁, h₂, h₃⟩

theorem addIdsFrom_pairwise {l : List TaggedRow} (n : Nat) (h : l.Pairwise startLE) :
    (addIdsFrom n l).Pairwise fun a b : Row => a.start ≤ b.start := by
  induction l generalizing n with
  | nil => exact List.Pairwise.nil
  | cons r rs ih =>
    rcases List.pairwise_cons.mp h with ⟨hr, hrs⟩
    refine List.pairwise_cons.mpr ⟨?_, ih _ hrs⟩
    intro b hb
    obtain ⟨r', hr', h₁, _, _⟩ := mem_addIdsFrom hb
    simpa [h₁] using hr r' hr'

/-- C1: for every input set with at least one qualifying file (a `.tsv` file
other than the reserved `all.tsv`), `process_tsv_files` succeeds, the
combined table's row count equals the sum of the qualifying input files'
row counts, and the table is sorted non-decreasing on `start`. -/
theorem c1_rowcount_and_sorted (files : List InputFile)
    (h : qualifying files ≠ []) :
    ∃ out, process_tsv_files files = some out ∧
      out.length = ((qualifying files).map fun f => f.rows.length).sum ∧
      out.Pairwise fun a b => a.start ≤ b.start := by
  refine ⟨addIdsFrom 1
    (List.insertionSort startLE (((qualifying files).map tagRows).flatten)),
    ?_, ?_, ?_⟩
  · simp [process_tsv_files, h]
  · simp [addIdsFrom_length, List.length_flatten, List.map_map, tagRows,
      Function.comp_def]
  · exact addIdsFrom_pairwise 1 (List.sorted_insertionSort startLE _)

/-- The two-file scenario from the spec's §8: `alice.tsv` with one row
(text "hello world", start 0, end 1000) and `bob.tsv` with one row
(text "hello again", start 500, end 1500). -/
def demoFiles : List InputFile :=
  [⟨"alice.tsv", [⟨some "hello world", 0, 1000⟩]⟩,
   ⟨"bob.tsv", [⟨some "hello again", 500, 1500⟩]⟩]

/-- Witness for C1 at the spec's two-file scenario. -/
theorem c1_witness :
    qualifying demoFiles ≠ [] ∧
    ∃ out, process_tsv_files demoFiles = some out ∧
      out.length = ((qualifying demoFiles).map fun f => f.rows.length).sum ∧
      out.Pairwise fun a b => a.start ≤ b.start :=
  ⟨by decide, c1_rowcount_and_sorted demoFiles (by decide)⟩

/-- C3: for every input set with at least one qualifying file, the id column
of the combined table (assigned after sorting by `start`) is exactly the
dense sequence `1..N`, `N` the total row count. -/
theorem c3_dense_ids (files : List InputFile) (h : qualifying files ≠ []) :
    ∃ out, process_tsv_files files = some out ∧
      out.map Row.id = List.range' 1 out.length := by
  refine ⟨addIdsFrom 1
    (List.insertionSort startLE (((qualifying files).map tagRows).flatten)),
    ?_, ?_⟩
  · simp [process_tsv_files, h]
  · rw [addIdsFrom_map_id, addIdsFrom_length]

/-- Witness for C3 at the spec's two-file scenario. -/
theorem c3_witness :
    qualifying demoFiles ≠ [] ∧
    ∃ out, process_tsv_files demoFiles = some out ∧
      out.map Row.id = List.range' 1 out.length :=
  ⟨by decide, c3_dense_ids demoFiles (by decide)⟩

/-- C4: whenever `process_tsv_files` produces a combined table, every row's
`duration` field equals exactly that row's `end` minus its `start` (exact
integer arithmetic, no rounding, no guard for negative results). -/
theorem c4_duration (files : List InputFile) (out : List Row)
    (h : process_tsv_files files = some out) :
    ∀ r ∈ out, r.duration = r.end_ - r.start := by
  intro r hr
  unfold process_tsv_files at h
  split at h
  · exact absurd h (by simp)
  · obtain ⟨r', _, h₁, h₂, h₃⟩ := mem_addIdsFrom (Option.some_injective _ h ▸ hr)
    rw [h₃, h₁, h₂]

/-- The combined table `process_tsv_files` produces on `demoFiles`. -/
def demoCombined : List Row :=
  [⟨1, "alice", some "hello world", 0, 1000, 1000⟩,
   ⟨2, "bob", some "hello again", 500, 1500, 1000⟩]

/-- Witness for C4 at the spec's two-file scenario. -/
theorem c4_witness :
    process_tsv_files demoFiles = some demoCombined ∧
    ∀ r ∈ demoCombined, r.duration = r.end_ - r.start :=
  ⟨by decide, c4_duration demoFiles demoCombined (by decide)⟩

/-- C6: with zero qualifying input files (no `.tsv` file other than the
reserved `all.tsv`), `process_tsv_files` fails — `pd.concat` of the empty
collection raises — rather than returning an empty table. -/
theorem c6_empty_input_fails (files : List InputFile)
    (h : qualifying files = []) :
    process_tsv_files files = none := by
  simp [process_tsv_files, h]

/-- Witness for C6: a directory holding only the reserved output `all.tsv`
has no qualifying input file, and the run fails. -/
theorem c6_witness :
    qualifying [(⟨"all.tsv", []⟩ : InputFile)] = [] ∧
    process_tsv_files [(⟨"all.tsv", []⟩ : InputFile)] = none :=
  ⟨by decide, c6_empty_input_fails _ (by decide)⟩

/-- Models Python `str.isalnum()` on a token: true when the token is
nonempty and every character is alphanumeric. -/
def isalnum (t : List Char) : Bool := !t.isEmpty && t.all Char.isAlphanum

/-- Models `" ".join(texts)` at the character level. -/
def joinSp : List (List Char) → List Char
  | [] => []
  | [t] => t
  | t :: t' :: ts => t ++ ' ' :: joinSp (t' :: ts)

/-- Prepends a character to the first piece of a split (helper for
`splitSp`). -/
def consHead (c : Char) : List (List Char) → List (List Char)
  | [] => [[c]]
  | t :: ts => (c :: t) :: ts

/-- Splits a character sequence at every space, keeping empty pieces. -/
def splitSp : List Char → List (List Char)
  | [] => [[]]
  | c :: cs => if c = ' ' then [] :: splitSp cs else consHead c (splitSp cs)

/-- Models `nltk.word_tokenize` on this pipeline's input, at the character
level: the tokens of a text are its maximal space-free pieces.  The source
tokenizes the single space-joined string `" ".join(df["text"]).lower()`;
tokens never span the joining spaces, so tokenization distributes over the
join (proved below as `word_tokenize_joinSp`). -/
def word_tokenize (cs : List Char) : List (List Char) :=
  (splitSp cs).filter fun t => !t.isEmpty

theorem splitSp_ne_nil (cs : List Char) : splitSp cs ≠ [] := by
  induction cs with
  | nil => simp [splitSp]
  | cons c cs ih =>
    by_cases h : c = ' '
    · simp [splitSp, h]
    · simp only [splitSp, if_neg h]
      cases hs : splitSp cs with
      | nil => exact absurd hs ih
      | cons t ts => simp [consHead]

theorem splitSp_append_space (a b : List Char) :
    splitSp (a ++ ' ' :: b) = splitSp a ++ splitSp b := by
  induction a with
  | nil => simp [splitSp]
  | cons c a ih =>
    by_cases h : c = ' '
    · simp [splitSp, h, ih]
    · have key : splitSp ((c :: a) ++ ' ' :: b) = consHead c (splitSp (a ++ ' ' :: b)) := by
        simp [splitSp, h]
      have key2 : splitSp (c :: a) = consHead c (splitSp a) := by
        simp [splitSp, h]
      rw [key, ih, key2]
      cases hs : splitSp a with
      | nil => exact absurd hs (splitSp_ne_nil a)
      | cons t ts => simp [consHead]

theorem word_tokenize_append_space (a b : List Char) :
    word_tokenize (a ++ ' ' :: b) = word_tokenize a ++ word_tokenize b := by
  simp [word_tokenize, splitSp_append_space, List.filter_append]

theorem word_tokenize_joinSp (l : List (List Char)) :
    word_tokenize (joinSp l) = (l.map word_tokenize).flatten := by
  induction l with
  | nil => rfl
  | cons t ts ih =>
    cases ts with
    | nil => simp [joinSp, word_tokenize]
    | cons t' ts' =>
      have h1 : joinSp (t :: t' :: ts') = t ++ ' ' :: joinSp (t' :: ts') := rfl
      rw [h1, word_tokenize_append_space, ih]
      simp

/-- Models Python `str.lower()` character-wise. -/
def lowerChars (cs : List Char) : List Char := cs.map Char.toLower

theorem toLower_space : Char.toLower ' ' = ' ' := by decide

theorem lowerChars_joinSp (l : List (List Char)) :
    lowerChars (joinSp l) = joinSp (l.map lowerChars) := by
  induction l with
  | nil => rfl
  | cons t ts ih =>
    cases ts with
    | nil => rfl
    | cons t' ts' =>
      have h1 : joinSp (t :: t' :: ts') = t ++ ' ' :: joinSp (t' :: ts') := rfl
      have h2 : joinSp (lowerChars t :: (t' :: ts').map lowerChars)
          = lowerChars t ++ ' ' :: joinSp ((t' :: ts').map lowerChars) := rfl
      rw [List.map_cons, h1, h2, ← ih]
      simp [lowerChars, toLower_space]

/-- Models `df["text"].astype(str)` on one cell: pandas renders a missing
value (`NaN`) as the string `"nan"` and leaves present strings unchanged. -/
def astype_str : Option String → String
  | none => "nan"
  | some s => s

/-- Models `df["text"].replace("nan", "")` on one cell: a cell whose entire
value equals `"nan"` becomes the empty string. -/
def replaceNan (s : String) : String := if s = "nan" then "" else s

/-- The text-cleaning composition `astype(str)` then `replace("nan", "")`
applied to the `text` column before tokenization. -/
def cleanText (t : Option String) : String := replaceNan (astype_str t)

/-- Models `all_text = " ".join(df["text"])` at the character level, after
cleaning. -/
def all_text (rows : List Row) : List Char :=
  joinSp (rows.map fun r => (cleanText r.text).data)

/-- The list comprehension
`[word for word in words if word.isalnum() and word not in stop_words]`.
The stop-word set (`get_stopwords()`, the NLTK English list) is external
run-time data and enters the model as a parameter. -/
def filterWords (stopWords : List (List Char)) (tokens : List (List Char)) :
    List (List Char) :=
  tokens.filter fun w => isalnum w && decide (w ∉ stopWords)

/-- The full token pipeline of `analyze_data`:
`word_tokenize(all_text.lower())` filtered by `isalnum` and the stop-word
set. -/
def tableWords (stopWords : List (List Char)) (rows : List Row) :
    List (List Char) :=
  filterWords stopWords (word_tokenize (lowerChars (all_text rows)))

/-- The tokens a single row contributes to the pipeline. -/
def rowTokens (r : Row) : List (List Char) :=
  word_tokenize (lowerChars (cleanText r.text).data)

/-- The tokenized table decomposes into each row's own contribution. -/
theorem word_tokenize_all_text (rows : List Row) :
    word_tokenize (lowerChars (all_text rows)) = (rows.map rowTokens).flatten := by
  rw [all_text, lowerChars_joinSp, word_tokenize_joinSp, List.map_map, List.map_map]
  rfl

/-- The distinct elements of a list in first-occurrence order: the iteration
order of a Python `Counter` built from the list (an insertion-ordered
dict). -/
def firstOccurrences {α : Type} [DecidableEq α] : List α → List α
  | [] => []
  | w :: ws => w :: (firstOccurrences ws).filter fun v => decide (v ≠ w)

/-- Models `Counter(ws)` as an association list in iteration order. -/
def counterList {α : Type} [DecidableEq α] (ws : List α) : List (α × Nat) :=
  (firstOccurrences ws).map fun w => (w, ws.countP fun v => decide (v = w))

/-- One step of the stable descending-by-count ordering behind
`Counter.most_common` and `Series.value_counts`: an element moves past `q`
only when `q`'s count is strictly larger, so equal counts keep their
first-encountered order. -/
def insertDesc {α : Type} (p : α × Nat) : List (α × Nat) → List (α × Nat)
  | [] => [p]
  | q :: qs => if p.2 < q.2 then q :: insertDesc p qs else p :: q :: qs

/-- Stable sort by descending count. -/
def sortDescByCount {α : Type} (l : List (α × Nat)) : List (α × Nat) :=
  l.foldr insertDesc []

/-- Models `Counter.most_common(n)`: the `n` largest counts, ties broken by
first-encountered order. -/
def most_common {α : Type} [DecidableEq α] (n : Nat) (ws : List α) :
    List (α × Nat) :=
  (sortDescByCount (counterList ws)).take n

theorem mem_insertDesc {α : Type} {p q : α × Nat} {l : List (α × Nat)}
    (h : p ∈ insertDesc q l) : p = q ∨ p ∈ l := by
  induction l with
  | nil => simpa [insertDesc] using h
  | cons r rs ih =>
    simp only [insertDesc] at h
    split at h
    · rcases List.mem_cons.mp h with h | h
      · exact Or.inr (h ▸ List.mem_cons_self ..)
      · rcases ih h with h | h
        · exact Or.inl h
        · exact Or.inr (List.mem_cons_of_mem _ h)
    · rcases List.mem_cons.mp h with h | h
      · exact Or.inl h
      · exact Or.inr h

theorem mem_sortDescByCount {α : Type} {p : α × Nat} {l : List (α × Nat)}
    (h : p ∈ sortDescByCount l) : p ∈ l := by
  induction l with
  | nil => simp [sortDescByCount] at h
  | cons q qs ih =>
    rcases mem_insertDesc h with h | h
    · simp [h]
    · exact List.mem_cons_of_mem _ (ih h)

theorem mem_firstOccurrences {α : Type} [DecidableEq α] {v : α} {ws : List α}
    (h : v ∈ firstOccurrences ws) : v ∈ ws := by
  induction ws with
  | nil => simp [firstOccurrences] at h
  | cons w ws ih =>
    rcases List.mem_cons.mp h with h | h
    · simp [h]
    · exact List.mem_cons_of_mem _ (ih (List.mem_of_mem_filter h))

/-- C7: the top-10 word-frequency list contains no stop word and no token
that is not purely alphanumeric: every entry of `word_freq.most_common(10)`
passed the `isalnum` and stop-word filter (applied to the already-lowercased
token stream). -/
theorem c7_top10_filtered (stopWords : List (List Char)) (rows : List Row) :
    ∀ p ∈ most_common 10 (tableWords stopWords rows),
      isalnum p.1 = true ∧ p.1 ∉ stopWords := by
  intro p hp
  have hp1 : p ∈ counterList (tableWords stopWords rows) :=
    mem_sortDescByCount (List.take_subset _ _ hp)
  obtain ⟨w, hw, hwp⟩ := List.mem_map.mp hp1
  have hw1 := mem_firstOccurrences hw
  simp only [tableWords, filterWords] at hw1
  have hw2 := (List.mem_filter.mp hw1).2
  rw [← hwp]
  simpa using hw2

/-- Witness for C7: on the spec's two-file scenario with an empty stop-word
set, the token "hello" (count 2) heads the top-10 list. -/
theorem c7_witness :
    isalnum "hello".data = true ∧ "hello".data ∉ ([] : List (List Char)) :=
  c7_top10_filtered [] demoCombined ("hello".data, 2) (by decide)

/-- C8: a row whose `text` cell is missing is treated as the empty string:
it contributes zero tokens, and the pipeline's word list equals the filtered
concatenation of the remaining rows' tokens — so the word-frequency and POS
counts, both functions of that word list, receive nothing from the row.
Tokenization is modelled by a total function, so no error is raised. -/
theorem c8_missing_text (stopWords : List (List Char)) (pre post : List Row)
    (r : Row) (h : r.text = none) :
    rowTokens r = [] ∧
    tableWords stopWords (pre ++ r :: post) =
      filterWords stopWords ((pre ++ post).map rowTokens).flatten := by
  have hr : rowTokens r = [] := by
    simp only [rowTokens, h]
    rfl
  refine ⟨hr, ?_⟩
  rw [tableWords, word_tokenize_all_text]
  simp [hr]

/-- A row with a missing `text` cell. -/
def demoMissingRow : Row := ⟨1, "carol", none, 0, 1000, 1000⟩

/-- Witness for C8: a missing-text row placed before the demo rows
contributes zero tokens. -/
theorem c8_witness :
    demoMissingRow.text = none ∧
    (rowTokens demoMissingRow = [] ∧
     tableWords [] ([] ++ demoMissingRow :: demoCombined) =
       filterWords [] ((([] : List Row) ++ demoCombined).map rowTokens).flatten) :=
  ⟨rfl, c8_missing_text [] [] demoCombined demoMissingRow rfl⟩

/-- C10: a row whose `text` is the literal two-character-plus string "nan"
is indistinguishable from a missing value: the cleaning step maps it to the
empty string, exactly as it maps a missing cell, and the row contributes
zero tokens. -/
theorem c10_nan_literal (r : Row) (h : r.text = some "nan") :
    cleanText r.text = "" ∧ cleanText r.text = cleanText none ∧
    rowTokens r = [] := by
  refine ⟨?_, ?_, ?_⟩
  · rw [h]; rfl
  · rw [h]; rfl
  · simp only [rowTokens, h]; rfl

/-- A row whose text is the genuine string "nan". -/
def demoNanRow : Row := ⟨1, "dave", some "nan", 0, 1000, 1000⟩

/-- Witness for C10 at a concrete row carrying the text "nan". -/
theorem c10_witness :
    cleanText demoNanRow.text = "" ∧
    cleanText demoNanRow.text = cleanText none ∧
    rowTokens demoNanRow = [] :=
  c10_nan_literal demoNanRow rfl

/-- Models `Series.max()` on an integer column.  pandas yields `NaN` on an
empty column; the `[]` branch is a junk value reached only outside the
nonempty hypotheses used below. -/
def seriesMax : List Int → Int
  | [] => 0
  | x :: xs => xs.foldl max x

/-- Models `Series.min()` on an integer column, like `seriesMax`. -/
def seriesMin : List Int → Int
  | [] => 0
  | x :: xs => xs.foldl min x

theorem foldl_max_spec (xs : List Int) (x : Int) :
    (xs.foldl max x = x ∨ xs.foldl max x ∈ xs) ∧
    x ≤ xs.foldl max x ∧ ∀ y ∈ xs, y ≤ xs.foldl max x := by
  induction xs generalizing x with
  | nil => exact ⟨Or.inl rfl, le_refl x, by simp⟩
  | cons a t ih =>
    obtain ⟨hmem, hle, hall⟩ := ih (max x a)
    refine ⟨?_, le_trans (le_max_left x a) hle, ?_⟩
    · rcases hmem with h | h
      · rcases max_choice x a with hc | hc
        · exact Or.inl (by rw [List.foldl_cons, h, hc])
        · refine Or.inr ?_
          rw [List.foldl_cons, h, hc]
          exact List.mem_cons_self ..
      · exact Or.inr (List.mem_cons_of_mem _ h)
    · intro y hy
      rcases List.mem_cons.mp hy with rfl | h
      · exact le_trans (le_max_right x _) hle
      · exact hall y h

theorem foldl_min_spec (xs : List Int) (x : Int) :
    (xs.foldl min x = x ∨ xs.foldl min x ∈ xs) ∧
    xs.foldl min x ≤ x ∧ ∀ y ∈ xs, xs.foldl min x ≤ y := by
  induction xs generalizing x with
  | nil => exact ⟨Or.inl rfl, le_refl x, by simp⟩
  | cons a t ih =>
    obtain ⟨hmem, hle, hall⟩ := ih (min x a)
    refine ⟨?_, le_trans hle (min_le_left x a), ?_⟩
    · rcases hmem with h | h
      · rcases min_choice x a with hc | hc
        · exact Or.inl (by rw [List.foldl_cons, h, hc])
        · refine Or.inr ?_
          rw [List.foldl_cons, h, hc]
          exact List.mem_cons_self ..
      · exact Or.inr (List.mem_cons_of_mem _ h)
    · intro y hy
      rcases List.mem_cons.mp hy with rfl | h
      · exact le_trans hle (min_le_right x _)
      · exact hall y h

theorem seriesMax_spec (xs : List Int) (h : xs ≠ []) :
    seriesMax xs ∈ xs ∧ ∀ y ∈ xs, y ≤ seriesMax xs := by
  cases xs with
  | nil => exact absurd rfl h
  | cons a t =>
    obtain ⟨hmem, hle, hall⟩ := foldl_max_spec t a
    refine ⟨?_, ?_⟩
    · rcases hmem with h' | h'
      · show t.foldl max a ∈ a :: t
        rw [h']
        exact List.mem_cons_self ..
      · exact List.mem_cons_of_mem _ h'
    · intro y hy
      rcases List.mem_cons.mp hy with rfl | h'
      · exact hle
      · exact hall y h'

theorem seriesMin_spec (xs : List Int) (h : xs ≠ []) :
    seriesMin xs ∈ xs ∧ ∀ y ∈ xs, seriesMin xs ≤ y := by
  cases xs with
  | nil => exact absurd rfl h
  | cons a t =>
    obtain ⟨hmem, hle, hall⟩ := foldl_min_spec t a
    refine ⟨?_, ?_⟩
    · rcases hmem with h' | h'
      · show t.foldl min a ∈ a :: t
        rw [h']
        exact List.mem_cons_self ..
      · exact List.mem_cons_of_mem _ h'
    · intro y hy
      rcases List.mem_cons.mp hy with rfl | h'
      · exact hle
      · exact hall y h'

/-- Models `total_duration = (df["end"].max() - df["start"].min()) / 1000`:
integer column aggregates, then Python true division modelled exactly in
`ℚ`. -/
def total_duration (rows : List Row) : ℚ :=
  ((seriesMax (rows.map fun r => r.end_) -
      seriesMin (rows.map fun r => r.start) : Int) : ℚ) / 1000

/-- C5: on every non-empty combined table the reported total duration equals
the maximum `end` over all rows minus the minimum `start` over all rows —
the millisecond span — divided by 1000. -/
theorem c5_total_duration (rows : List Row) (h : rows ≠ []) :
    ∃ M m : Int, M ∈ rows.map (fun r => r.end_) ∧
      (∀ e ∈ rows.map (fun r => r.end_), e ≤ M) ∧
      m ∈ rows.map (fun r => r.start) ∧
      (∀ s ∈ rows.map (fun r => r.start), m ≤ s) ∧
      total_duration rows = ((M : ℚ) - (m : ℚ)) / 1000 := by
  have hne : rows.map (fun r => r.end_) ≠ [] := by
    simp [List.map_eq_nil_iff, h]
  have hns : rows.map (fun r => r.start) ≠ [] := by
    simp [List.map_eq_nil_iff, h]
  obtain ⟨hM1, hM2⟩ := seriesMax_spec _ hne
  obtain ⟨hm1, hm2⟩ := seriesMin_spec _ hns
  refine ⟨_, _, hM1, hM2, hm1, hm2, ?_⟩
  simp only [total_duration]
  push_cast
  ring

/-- Witness for C5 at the spec's two-file scenario (span 1500 ms, reported
as 1.5 s). -/
theorem c5_witness :
    demoCombined ≠ [] ∧
    ∃ M m : Int, M ∈ demoCombined.map (fun r => r.end_) ∧
      (∀ e ∈ demoCombined.map (fun r => r.end_), e ≤ M) ∧
      m ∈ demoCombined.map (fun r => r.start) ∧
      (∀ s ∈ demoCombined.map (fun r => r.start), m ≤ s) ∧
      total_duration demoCombined = ((M : ℚ) - (m : ℚ)) / 1000 :=
  ⟨by decide, c5_total_duration demoCombined (by decide)⟩

/-- Models `avg_segment_duration = df["duration"].mean() / 1000` (pandas
mean is sum over count; the empty-column `NaN` is junk-valued here). -/
def avg_segment_duration (rows : List Row) : ℚ :=
  (((rows.map fun r => r.duration).sum : Int) : ℚ) / (rows.length : ℚ) / 1000

/-- The numbers `analyze_data` computes for the report; the Markdown
rendering and the chart drawing add no further data.  POS tagging is the
external `nltk.pos_tag`, a pure function of the filtered token list, which
is therefore recorded as `pos_input`. -/
structure Stats where
  total_duration : ℚ
  avg_segment_duration : ℚ
  segment_count : Nat
  earliest : ℚ
  latest : ℚ
  speaker_counts : List (String × Nat)
  word_freq_top10 : List (List Char × Nat)
  pos_input : List (List Char)
  deriving DecidableEq

/-- Models the statistics-computing part of `analyze_data`. -/
def analyze_data (stopWords : List (List Char)) (rows : List Row) : Stats :=
  { total_duration := total_duration rows
    avg_segment_duration := avg_segment_duration rows
    segment_count := rows.length
    earliest := ((seriesMin (rows.map fun r => r.start) : Int) : ℚ) / 1000
    latest := ((seriesMax (rows.map fun r => r.end_) : Int) : ℚ) / 1000
    speaker_counts := sortDescByCount (counterList (rows.map fun r => r.person))
    word_freq_top10 := most_common 10 (tableWords stopWords rows)
    pos_input := tableWords stopWords rows }

/-- Renders one combined-table row as a tab-separated line of
`combined_df.to_csv("all.tsv", sep="\t", index=False)`; a missing text cell
renders as an empty field. -/
def renderRow (r : Row) : String :=
  toString r.id ++ "\t" ++ r.person ++ "\t" ++
    (match r.text with
     | none => ""
     | some s => s) ++ "\t" ++
    toString r.start ++ "\t" ++ toString r.end_ ++ "\t" ++ toString r.duration

/-- The byte content written to `all.tsv`. -/
def to_csv (rows : List Row) : String :=
  "id\tperson\ttext\tstart\tend\tduration\n" ++
    String.join (rows.map fun r => renderRow r ++ "\n")

/-- Models one full run of `main` restricted to the outputs that carry data:
the bytes of `all.tsv` and the computed statistics (chart pixels are
excluded, as the claim excludes them). -/
def pipeline (stopWords : List (List Char)) (files : List InputFile) :
    Option (String × Stats) :=
  (process_tsv_files files).map fun rows =>
    (to_csv rows, analyze_data stopWords rows)

/-- C9: two runs whose directory scans contain the same qualifying input
files in the same order — in particular a re-run after the first run wrote
`all.tsv`, which the second scan sees but the ingestion filter excludes —
produce byte-identical combined-table output and identical statistics.  The
embedded pipeline is a pure function of the scanned files and the stop-word
set, so equal qualifying inputs force equal outputs. -/
theorem c9_two_run_determinism (stopWords : List (List Char))
    (files₁ files₂ : List InputFile)
    (h : qualifying files₁ = qualifying files₂) :
    pipeline stopWords files₁ = pipeline stopWords files₂ := by
  simp only [pipeline, process_tsv_files, h]

/-- Witness for C9: the second run's scan additionally sees the `all.tsv`
produced by the first run; both outputs coincide. -/
theorem c9_witness :
    qualifying demoFiles =
      qualifying (demoFiles ++ [⟨"all.tsv",
        [⟨some "hello world", 0, 1000⟩, ⟨some "hello again", 500, 1500⟩]⟩]) ∧
    pipeline [] demoFiles =
      pipeline [] (demoFiles ++ [⟨"all.tsv",
        [⟨some "hello world", 0, 1000⟩, ⟨some "hello again", 500, 1500⟩]⟩]) :=
  ⟨by decide, c9_two_run_determinism [] _ _ (by decide)⟩

end CombineTsv
